import Mathlib

/-!
Formal model of `landscape/monitor/cpuusage.py` (the `CPUUsage` monitor
plugin).  Python strings are embedded as `List Char`, machine integers as
`Int`/`Nat` (Python integers are unbounded, so no modular reduction is
needed), float division as exact division in `ℚ`, and exceptions that the
Python code does not catch as the `Except Unit` error state.  The persisted
key-value store slots used by the plugin (`last-cpu-usage-mesure` and the
accumulator slot) are threaded explicitly as state.
-/

namespace CpuUsage

/-- Decimal digit character for a value below ten (used only to build
well-formed numeral test inputs; values ten or above map to a junk char). -/
def toDigitChar : Nat → Char
  | 0 => '0'
  | 1 => '1'
  | 2 => '2'
  | 3 => '3'
  | 4 => '4'
  | 5 => '5'
  | 6 => '6'
  | 7 => '7'
  | 8 => '8'
  | 9 => '9'
  | _ => '*'

/-- Accumulator-style decimal rendering of a natural number, most significant
digit first.  This builds the numeral tokens that appear in a well-formed
`/proc/stat` line. -/
def renderNatAux (n : Nat) (acc : List Char) : List Char :=
  if n < 10 then toDigitChar n :: acc
  else renderNatAux (n / 10) (toDigitChar (n % 10) :: acc)
termination_by n
decreasing_by exact Nat.div_lt_self (by omega) (by omega)

/-- Decimal numeral of a natural number as a character list. -/
def renderNat (n : Nat) : List Char := renderNatAux n []

/-- One step of decimal accumulation: `s ↦ 10*s + digit`. -/
def digitStep (s : Nat) (c : Char) : Nat := 10 * s + (c.toNat - 48)

/-- Value of a non-empty all-digit character list, `none` otherwise. -/
def parseDigits (cs : List Char) : Option Nat :=
  if cs ≠ [] ∧ cs.all Char.isDigit then some (cs.foldl digitStep 0) else none

/-- Model of Python `int(s)` on the decimal-numeral subset: an optional
leading minus sign followed by one or more digits.  Inputs outside this
subset yield `none`, modelling the `ValueError` that `int` raises on them. -/
def pyInt (cs : List Char) : Option Int :=
  match cs with
  | [] => none
  | c :: rest =>
    if c = '-' then (parseDigits rest).map (fun n => -(n : Int))
    else (parseDigits (c :: rest)).map (fun n => (n : Int))

/-- Model of Python `s.split(" ")`: split on every single space character,
keeping empty tokens (so consecutive spaces produce empty fields). -/
def splitOnSpace : List Char → List (List Char)
  | [] => [[]]
  | c :: cs =>
    if c = ' ' then [] :: splitOnSpace cs
    else
      match splitOnSpace cs with
      | t :: ts => (c :: t) :: ts
      | [] => [[c]]

/-- Model of Python `s.replace("\n", "")`: remove every newline character. -/
def removeNewlines (cs : List Char) : List Char :=
  cs.filter (fun c => decide (c ≠ '\n'))

/-- Field extraction of `_get_cpu_usage` (cpuusage.py lines 108-112):
`stat.replace("\n", "").split(" ")[2:]` — drop the `"cpu"` label and the
empty token produced by the double space of the `/proc/stat` layout. -/
def parseStatFields (stat : List Char) : List (List Char) :=
  (splitOnSpace (removeNewlines stat)).drop 2

/-- Delta of field `i` between the new fields and the previous fields, as the
Python expression `int(fields[i]) - int(previous_fields[i])` would compute
it; `none` when either index is out of range (`IndexError`) or either token
is not a numeral (`ValueError`). -/
def fieldDelta (fields previousFields : List (List Char)) (i : Nat) : Option Int :=
  match (fields[i]?).bind pyInt, (previousFields[i]?).bind pyInt with
  | some a, some b => some (a - b)
  | _, _ => none

/-- The `for i in range(len(fields))` loop of `_get_cpu_usage` (lines
116-124), iterating over the given index list with the `delta_fields`,
`used_delta` and `reboot` loop state.  `break` on the first negative delta is
the early `.ok` return with `reboot = true`; an unparseable token or a
too-short previous list is an uncaught Python exception, hence `.error`. -/
def deltaLoop (fields previousFields : List (List Char)) :
    List Nat → List Int → Int → Except Unit (List Int × Int × Bool)
  | [], deltaFields, usedDelta => .ok (deltaFields, usedDelta, false)
  | i :: rest, deltaFields, usedDelta =>
    match (fields[i]?).bind pyInt with
    | none => .error ()
    | some a =>
      match (previousFields[i]?).bind pyInt with
      | none => .error ()
      | some b =>
        let delta := a - b
        if delta < 0 then .ok (deltaFields, usedDelta, true)
        else
          deltaLoop fields previousFields rest (deltaFields ++ [delta])
            (if i ≠ 3 then usedDelta + delta else usedDelta)

/-- Body of the `if previous_fields is not None:` block of `_get_cpu_usage`
(lines 114-130): run the delta loop over `range(len(fields))`; when no reboot
was detected read `delta_fields[3]` (an `IndexError` when fewer than four
deltas were collected), and divide unless the divisor is zero. -/
def computeFromFields (fields previousFields : List (List Char)) :
    Except Unit (Option ℚ) :=
  match deltaLoop fields previousFields (List.range fields.length) [] 0 with
  | .error e => .error e
  | .ok (deltaFields, usedDelta, reboot) =>
    if reboot then .ok none
    else
      match deltaFields[3]? with
      | none => .error ()
      | some idleDelta =>
        let divisor := idleDelta + usedDelta
        if divisor = 0 then .ok none
        else .ok (some ((usedDelta : ℚ) / (divisor : ℚ)))

/-- The final sanity guard of `_get_cpu_usage` (lines 132-136): a computed
ratio outside `[0, 1]` is discarded. -/
def sanitize : Option ℚ → Option ℚ
  | none => none
  | some r => if r < 0 ∨ r > 1 then none else some r

/-- Model of `CPUUsage._get_cpu_usage` (cpuusage.py lines 68-138).
`readResult` is the outcome of reading the first line of the stat file:
`none` models the caught `IOError` (the function logs and returns `None`
without touching the persisted state).  On a successful read the fields are
parsed, the ratio is computed when a previous sample exists, the sanity
guard is applied, and the persisted slot is set to the new fields.  The
returned pair is (result, new persisted `last-cpu-usage-mesure` slot). -/
def get_cpu_usage (readResult : Option (List Char))
    (lastMeasure : Option (List (List Char))) :
    Except Unit (Option ℚ × Option (List (List Char))) :=
  match readResult with
  | none => .ok (none, lastMeasure)
  | some stat =>
    let fields := parseStatFields stat
    let rawResult : Except Unit (Option ℚ) :=
      match lastMeasure with
      | none => .ok none
      | some previousFields => computeFromFields fields previousFields
    rawResult.map (fun result => (sanitize result, some fields))

/-- Mutable state of a `CPUUsage` plugin instance: the outgoing buffer
`self._cpu_usage_points`, the persisted previous sample
(`last-cpu-usage-mesure`), and the accumulator's persisted state
(`cpu-usage-accumulator`), kept abstract as `σ` since the accumulator lives
outside this module. -/
structure PluginState (σ P : Type) where
  cpuUsagePoints : List P
  lastMeasure : Option (List (List Char))
  accumState : σ

/-- Message dictionary built by `create_message`. -/
structure Message (P : Type) where
  msgType : List Char
  cpuUsages : List P

/-- Model of `CPUUsage.create_message` (cpuusage.py lines 42-45): take the
buffered points, reset the buffer to `[]`, and wrap the points in a
`cpu-usage` message. -/
def create_message {σ P : Type} (st : PluginState σ P) :
    Message P × PluginState σ P :=
  ({ msgType := "cpu-usage".data, cpuUsages := st.cpuUsagePoints },
   { st with cpuUsagePoints := [] })

/-- Model of `CPUUsage.run` (cpuusage.py lines 56-66).  `accumulate` is the
externally-defined `Accumulator` applied at the fixed key, abstract in both
its step logic and its persisted state `σ`; `newTimestamp` is
`int(self._create_time())`; `readResult` is the stat-file read outcome fed
to `_get_cpu_usage`.  A `None` usage skips the accumulator; a `None`
step result skips the append. -/
def run {σ P : Type} (accumulate : Int → ℚ → σ → Option P × σ)
    (newTimestamp : Int) (readResult : Option (List Char))
    (st : PluginState σ P) : Except Unit (PluginState σ P) :=
  match get_cpu_usage readResult st.lastMeasure with
  | .error e => .error e
  | .ok (newCpuUsage, newLastMeasure) =>
    let st1 : PluginState σ P := { st with lastMeasure := newLastMeasure }
    match newCpuUsage with
    | none => .ok st1
    | some usage =>
      let (stepData, accSt) := accumulate newTimestamp usage st1.accumState
      let st2 : PluginState σ P := { st1 with accumState := accSt }
      match stepData with
      | none => .ok st2
      | some p => .ok { st2 with cpuUsagePoints := st2.cpuUsagePoints ++ [p] }

/-- Separator-joined concatenation of tokens with a single space between
consecutive tokens (the shape of the numeric part of a `/proc/stat` line). -/
def intercalateSpace : List (List Char) → List Char
  | [] => []
  | [t] => t
  | t :: ts => t ++ ' ' :: intercalateSpace ts

/-- The rendered form of a counter sample as it appears in the persisted
`last-cpu-usage-mesure` slot: one decimal token per counter. -/
def renderSample (sample : List Nat) : List (List Char) :=
  sample.map renderNat

/-- First line of a `/proc/stat` file for the given aggregate counters:
label `cpu`, two spaces, the single-space separated decimal counters, and a
trailing newline. -/
def statLineOf (sample : List Nat) : List Char :=
  'c' :: 'p' :: 'u' :: ' ' :: ' ' ::
    (intercalateSpace (sample.map renderNat) ++ ['\n'])

/-- Per-field counter delta of two samples, `new[i] - prev[i]` over `ℤ`. -/
def sampleDelta (newSample prevSample : List Nat) (i : Nat) : Int :=
  (newSample.getD i 0 : Int) - (prevSample.getD i 0 : Int)

/-- Sum of the deltas of every field except the idle field (index 3). -/
def usedOf (newSample prevSample : List Nat) : Int :=
  (((List.range newSample.length).filter (fun i => decide (i ≠ 3))).map
    (sampleDelta newSample prevSample)).sum

/-- Delta of the idle field (index 3). -/
def idleOf (newSample prevSample : List Nat) : Int :=
  sampleDelta newSample prevSample 3

theorem toDigitChar_isDigit {d : Nat} (h : d < 10) : (toDigitChar d).isDigit = true := by
  interval_cases d <;> rfl

theorem toDigitChar_toNat {d : Nat} (h : d < 10) : (toDigitChar d).toNat = 48 + d := by
  interval_cases d <;> rfl

theorem renderNatAux_lt {n : Nat} (h : n < 10) (acc : List Char) :
    renderNatAux n acc = toDigitChar n :: acc := by
  rw [renderNatAux]
  simp [h]

theorem renderNatAux_ge {n : Nat} (h : ¬ n < 10) (acc : List Char) :
    renderNatAux n acc = renderNatAux (n / 10) (toDigitChar (n % 10) :: acc) := by
  rw [renderNatAux]
  simp [h]

theorem renderNatAux_append (n : Nat) :
    ∀ acc : List Char, renderNatAux n acc = renderNatAux n [] ++ acc := by
  induction n using Nat.strong_induction_on with
  | _ n ih =>
    intro acc
    by_cases h : n < 10
    · rw [renderNatAux_lt h, renderNatAux_lt h]
      rfl
    · rw [renderNatAux_ge h, renderNatAux_ge h,
        ih (n / 10) (Nat.div_lt_self (by omega) (by omega)) (toDigitChar (n % 10) :: acc),
        ih (n / 10) (Nat.div_lt_self (by omega) (by omega)) [toDigitChar (n % 10)]]
      simp

theorem renderNat_ne_nil (n : Nat) : renderNat n ≠ [] := by
  rw [renderNat]
  by_cases h : n < 10
  · rw [renderNatAux_lt h]
    simp
  · rw [renderNatAux_ge h, renderNatAux_append]
    simp

theorem renderNat_all_digits (n : Nat) : ∀ c ∈ renderNat n, c.isDigit = true := by
  induction n using Nat.strong_induction_on with
  | _ n ih =>
    intro c hc
    rw [renderNat] at hc
    by_cases h : n < 10
    · rw [renderNatAux_lt h] at hc
      rcases List.mem_singleton.mp hc with rfl
      exact toDigitChar_isDigit h
    · rw [renderNatAux_ge h, renderNatAux_append] at hc
      rcases List.mem_append.mp hc with h1 | h1
      · exact ih (n / 10) (Nat.div_lt_self (by omega) (by omega)) c h1
      · rcases List.mem_singleton.mp h1 with rfl
        exact toDigitChar_isDigit (Nat.mod_lt n (by omega))

theorem renderNat_foldl (n : Nat) :
    ∀ v : Nat, (renderNat n).foldl digitStep v = v * 10 ^ (renderNat n).length + n := by
  induction n using Nat.strong_induction_on with
  | _ n ih =>
    intro v
    rw [renderNat]
    by_cases h : n < 10
    · rw [renderNatAux_lt h]
      simp [digitStep, toDigitChar_toNat h]
      omega
    · have hd : n / 10 < n := Nat.div_lt_self (by omega) (by omega)
      rw [renderNatAux_ge h, renderNatAux_append, List.foldl_append, List.length_append]
      simp only [renderNat] at ih
      rw [ih (n / 10) hd v]
      simp [digitStep, toDigitChar_toNat (Nat.mod_lt n (by omega))]
      rw [pow_succ]
      have := Nat.div_add_mod n 10
      ring_nf
      omega

theorem parseDigits_renderNat (n : Nat) : parseDigits (renderNat n) = some n := by
  rw [parseDigits, if_pos]
  · rw [renderNat_foldl n 0]
    simp
  · exact ⟨renderNat_ne_nil n, List.all_eq_true.mpr (renderNat_all_digits n)⟩

theorem pyInt_renderNat (n : Nat) : pyInt (renderNat n) = some (n : Int) := by
  cases hr : renderNat n with
  | nil => exact absurd hr (renderNat_ne_nil n)
  | cons c rest =>
    have hc : c.isDigit = true := renderNat_all_digits n c (by rw [hr]; simp)
    have hdash : c ≠ '-' := by
      intro h
      rw [h] at hc
      exact absurd hc (by decide)
    rw [pyInt, if_neg hdash, ← hr, parseDigits_renderNat]
    rfl

theorem renderNat_ne_space (n : Nat) : ∀ c ∈ renderNat n, c ≠ ' ' := by
  intro c hc h
  have := renderNat_all_digits n c hc
  rw [h] at this
  exact absurd this (by decide)

theorem renderNat_ne_newline (n : Nat) : ∀ c ∈ renderNat n, c ≠ '\n' := by
  intro c hc h
  have := renderNat_all_digits n c hc
  rw [h] at this
  exact absurd this (by decide)

theorem splitOnSpace_space_cons (cs : List Char) :
    splitOnSpace (' ' :: cs) = [] :: splitOnSpace cs := by
  simp [splitOnSpace]

theorem splitOnSpace_cons_of_ne {c : Char} (h : c ≠ ' ') (cs t : List Char)
    (ts : List (List Char)) (hcs : splitOnSpace cs = t :: ts) :
    splitOnSpace (c :: cs) = (c :: t) :: ts := by
  rw [splitOnSpace, if_neg h, hcs]

theorem splitOnSpace_no_space (t : List Char) (h : ∀ c ∈ t, c ≠ ' ') :
    splitOnSpace t = [t] := by
  induction t with
  | nil => rfl
  | cons c cs ih =>
    exact splitOnSpace_cons_of_ne (h c (by simp)) cs cs []
      (ih (fun x hx => h x (by simp [hx])))

theorem splitOnSpace_token (t : List Char) (ht : ∀ c ∈ t, c ≠ ' ') (rest : List Char) :
    splitOnSpace (t ++ ' ' :: rest) = t :: splitOnSpace rest := by
  induction t with
  | nil => simpa using splitOnSpace_space_cons rest
  | cons c cs ih =>
    exact splitOnSpace_cons_of_ne (ht c (by simp)) _ cs (splitOnSpace rest)
      (ih (fun x hx => ht x (by simp [hx])))

theorem mem_intercalateSpace {c : Char} :
    ∀ {ts : List (List Char)}, c ∈ intercalateSpace ts → c = ' ' ∨ ∃ t ∈ ts, c ∈ t := by
  intro ts
  induction ts with
  | nil => intro h; simp [intercalateSpace] at h
  | cons t ts ih =>
    intro h
    cases ts with
    | nil =>
      simp only [intercalateSpace] at h
      exact Or.inr ⟨t, by simp, h⟩
    | cons t2 ts2 =>
      rw [show intercalateSpace (t :: t2 :: ts2) =
        t ++ ' ' :: intercalateSpace (t2 :: ts2) from rfl] at h
      rcases List.mem_append.mp h with h1 | h1
      · exact Or.inr ⟨t, by simp, h1⟩
      · rcases List.mem_cons.mp h1 with rfl | h2
        · exact Or.inl rfl
        · rcases ih h2 with h3 | ⟨u, hu, hcu⟩
          · exact Or.inl h3
          · exact Or.inr ⟨u, by simp [hu], hcu⟩

theorem splitOnSpace_intercalate (ts : List (List Char))
    (h : ∀ t ∈ ts, ∀ c ∈ t, c ≠ ' ') (hne : ts ≠ []) :
    splitOnSpace (intercalateSpace ts) = ts := by
  induction ts with
  | nil => exact absurd rfl hne
  | cons t ts ih =>
    cases ts with
    | nil =>
      simp only [intercalateSpace]
      exact splitOnSpace_no_space t (h t (by simp))
    | cons t2 ts2 =>
      rw [show intercalateSpace (t :: t2 :: ts2) =
        t ++ ' ' :: intercalateSpace (t2 :: ts2) from rfl,
        splitOnSpace_token t (h t (by simp)),
        ih (fun u hu => h u (by simp [hu])) (by simp)]

theorem removeNewlines_eq_self (cs : List Char) (h : ∀ c ∈ cs, c ≠ '\n') :
    removeNewlines cs = cs :=
  List.filter_eq_self.mpr (fun c hc => by simp [h c hc])

theorem removeNewlines_statLineOf (sample : List Nat) :
    removeNewlines (statLineOf sample) =
      'c' :: 'p' :: 'u' :: ' ' :: ' ' :: intercalateSpace (sample.map renderNat) := by
  have h1 : removeNewlines (statLineOf sample) =
      'c' :: 'p' :: 'u' :: ' ' :: ' ' ::
        removeNewlines (intercalateSpace (sample.map renderNat) ++ ['\n']) := rfl
  have h2 : removeNewlines (intercalateSpace (sample.map renderNat) ++ ['\n']) =
      removeNewlines (intercalateSpace (sample.map renderNat)) ++
        removeNewlines ['\n'] := List.filter_append ..
  have h3 : removeNewlines (intercalateSpace (sample.map renderNat)) =
      intercalateSpace (sample.map renderNat) := by
    apply removeNewlines_eq_self
    intro c hc
    rcases mem_intercalateSpace hc with rfl | ⟨t, ht, hct⟩
    · decide
    · rcases List.mem_map.mp ht with ⟨m, _, rfl⟩
      exact renderNat_ne_newline m c hct
  rw [h1, h2, h3, show removeNewlines ['\n'] = [] from rfl]
  simp

theorem parseStatFields_statLineOf (sample : List Nat) (h : sample ≠ []) :
    parseStatFields (statLineOf sample) = renderSample sample := by
  have htok : ∀ t ∈ sample.map renderNat, ∀ c ∈ t, c ≠ ' ' := by
    intro t ht c hct
    rcases List.mem_map.mp ht with ⟨m, _, rfl⟩
    exact renderNat_ne_space m c hct
  have hne : sample.map renderNat ≠ [] := by
    simp [h]
  have hI : splitOnSpace (intercalateSpace (sample.map renderNat)) = sample.map renderNat :=
    splitOnSpace_intercalate _ htok hne
  rw [parseStatFields, removeNewlines_statLineOf]
  rw [splitOnSpace_cons_of_ne (by decide) _ ['p', 'u'] ([] :: sample.map renderNat)
    (splitOnSpace_cons_of_ne (by decide) _ ['u'] ([] :: sample.map renderNat)
      (splitOnSpace_cons_of_ne (by decide) _ [] ([] :: sample.map renderNat)
        (by rw [splitOnSpace_space_cons, splitOnSpace_space_cons, hI])))]
  rfl

theorem fieldDelta_eq_some {F P : List (List Char)} {i : Nat} {d : Int}
    (h : fieldDelta F P i = some d) :
    ∃ a b, (F[i]?).bind pyInt = some a ∧ (P[i]?).bind pyInt = some b ∧ a - b = d := by
  rw [fieldDelta] at h
  cases hA : (F[i]?).bind pyInt with
  | none => rw [hA] at h; simp at h
  | some a =>
    cases hB : (P[i]?).bind pyInt with
    | none => rw [hA, hB] at h; simp at h
    | some b =>
      rw [hA, hB] at h
      simp at h
      exact ⟨a, b, rfl, rfl, h⟩

theorem deltaLoop_cons (F P : List (List Char)) {i : Nat} {a b : Int}
    (hA : (F[i]?).bind pyInt = some a) (hB : (P[i]?).bind pyInt = some b)
    (rest : List Nat) (acc : List Int) (u : Int) :
    deltaLoop F P (i :: rest) acc u =
      if a - b < 0 then .ok (acc, u, true)
      else deltaLoop F P rest (acc ++ [a - b]) (if i ≠ 3 then u + (a - b) else u) := by
  rw [deltaLoop, hA, hB]

theorem deltaLoop_success (F P : List (List Char))
    (hd : ∀ i, i < F.length → ∃ d, fieldDelta F P i = some d ∧ 0 ≤ d) :
    ∀ (n i : Nat) (acc : List Int) (u : Int), i + n ≤ F.length →
      deltaLoop F P (List.range' i n) acc u =
        .ok (acc ++ (List.range' i n).map (fun k => (fieldDelta F P k).getD 0),
          u + (((List.range' i n).filter (fun k => decide (k ≠ 3))).map
            (fun k => (fieldDelta F P k).getD 0)).sum,
          false) := by
  intro n
  induction n with
  | zero =>
    intro i acc u hle
    simp [deltaLoop]
  | succ m ih =>
    intro i acc u hle
    have hi : i < F.length := by omega
    obtain ⟨d, hdel, hd0⟩ := hd i hi
    obtain ⟨a, b, hA, hB, hab⟩ := fieldDelta_eq_some hdel
    rw [List.range'_succ, deltaLoop_cons F P hA hB, hab, if_neg (by omega),
      ih (i + 1) (acc ++ [d]) (if i ≠ 3 then u + d else u) (by omega)]
    rw [List.filter_cons, List.map_cons, hdel]
    by_cases hi3 : i = 3
    · subst hi3
      simp
    · simp [hi3]
      rw [hdel]
      simp only [Option.getD_some]
      ring

theorem deltaLoop_reboot (F P : List (List Char)) (j : Nat)
    (hneg : ∃ d, fieldDelta F P j = some d ∧ d < 0)
    (hpre : ∀ k, k < j → ∃ d, fieldDelta F P k = some d ∧ 0 ≤ d) :
    ∀ (n i : Nat) (acc : List Int) (u : Int), i ≤ j → j < i + n →
      ∃ acc' u', deltaLoop F P (List.range' i n) acc u = .ok (acc', u', true) := by
  intro n
  induction n with
  | zero =>
    intro i acc u hij hj
    omega
  | succ m ih =>
    intro i acc u hij hj
    by_cases hij' : i = j
    · subst hij'
      obtain ⟨d, hdel, hd0⟩ := hneg
      obtain ⟨a, b, hA, hB, hab⟩ := fieldDelta_eq_some hdel
      rw [List.range'_succ, deltaLoop_cons F P hA hB, hab, if_pos hd0]
      exact ⟨acc, u, rfl⟩
    · obtain ⟨d, hdel, hd0⟩ := hpre i (by omega)
      obtain ⟨a, b, hA, hB, hab⟩ := fieldDelta_eq_some hdel
      rw [List.range'_succ, deltaLoop_cons F P hA hB, hab, if_neg (by omega)]
      exact ih (i + 1) _ _ (by omega) (by omega)

theorem deltaLoop_total (F P : List (List Char))
    (hp : ∀ i, i < F.length →
      ((F[i]?).bind pyInt).isSome ∧ ((P[i]?).bind pyInt).isSome) :
    ∀ (n i : Nat) (acc : List Int) (u : Int), i + n ≤ F.length →
      ∃ acc' u' r, deltaLoop F P (List.range' i n) acc u = .ok (acc', u', r) ∧
        (r = false → acc'.length = acc.length + n) := by
  intro n
  induction n with
  | zero =>
    intro i acc u hle
    exact ⟨acc, u, false, by simp [deltaLoop], fun _ => by simp⟩
  | succ m ih =>
    intro i acc u hle
    have hi : i < F.length := by omega
    obtain ⟨hA, hB⟩ := hp i hi
    obtain ⟨a, hA'⟩ := Option.isSome_iff_exists.mp hA
    obtain ⟨b, hB'⟩ := Option.isSome_iff_exists.mp hB
    rw [List.range'_succ, deltaLoop_cons F P hA' hB']
    by_cases hab : a - b < 0
    · rw [if_pos hab]
      exact ⟨acc, u, true, rfl, by simp⟩
    · rw [if_neg hab]
      obtain ⟨acc', u', r, heq, hlen⟩ :=
        ih (i + 1) (acc ++ [a - b]) (if i ≠ 3 then u + (a - b) else u) (by omega)
      refine ⟨acc', u', r, heq, fun hr => ?_⟩
      have := hlen hr
      simp at this
      omega

theorem fieldDelta_renderSample (newS prevS : List Nat) (i : Nat)
    (hn : i < newS.length) (hp : i < prevS.length) :
    fieldDelta (renderSample newS) (renderSample prevS) i =
      some (sampleDelta newS prevS i) := by
  rw [fieldDelta, renderSample, renderSample, List.getElem?_map, List.getElem?_map,
    List.getElem?_eq_getElem hn, List.getElem?_eq_getElem hp]
  simp only [Option.map_some', Option.some_bind, pyInt_renderNat]
  rw [sampleDelta]
  simp [List.getD_eq_getElem, hn, hp]

/-- Claim C8: on the first-ever invocation, when no previous sample exists in the
persisted state, `_get_cpu_usage` returns absent and records the newly parsed
fields as the previous sample for the next invocation. -/
theorem first_run_absent_and_records (stat : List Char) :
    get_cpu_usage (some stat) none = .ok (none, some (parseStatFields stat)) := rfl

/-- Claim C6: when the stat file cannot be read (`IOError`), the tick is skipped
entirely: `_get_cpu_usage` returns absent with the persisted previous sample
unchanged, and `run` leaves the whole plugin state (buffer, persisted sample,
accumulator state) untouched — for every possible accumulator behavior, which
also shows the accumulator is never fed. -/
theorem read_failure_skips_tick {σ P : Type} (accumulate : Int → ℚ → σ → Option P × σ)
    (newTimestamp : Int) (st : PluginState σ P) :
    get_cpu_usage none st.lastMeasure = .ok (none, st.lastMeasure) ∧
      run accumulate newTimestamp none st = .ok st :=
  ⟨rfl, rfl⟩

/-- Claim C9: `create_message` returns the buffered points and empties the buffer,
so draining twice in a row without an intervening emitted point returns an
empty sequence the second time. -/
theorem drain_twice_empty {σ P : Type} (st : PluginState σ P) :
    (create_message st).1.cpuUsages = st.cpuUsagePoints ∧
      (create_message st).2.cpuUsagePoints = [] ∧
      (create_message (create_message st).2).1.cpuUsages = [] :=
  ⟨rfl, rfl, rfl⟩

/-- Claim C2: whenever `_get_cpu_usage` obtained a sample (the read did not fail)
and returned, the persisted previous-sample slot was overwritten with the
newly parsed fields, regardless of whether the result was a ratio or absent
(first run, reboot, zero divisor, or out-of-range). -/
theorem persist_always_updated (stat : List Char)
    (lastMeasure : Option (List (List Char))) (result : Option ℚ)
    (persisted : Option (List (List Char)))
    (h : get_cpu_usage (some stat) lastMeasure = .ok (result, persisted)) :
    persisted = some (parseStatFields stat) := by
  cases lastMeasure with
  | none =>
    simp only [get_cpu_usage, Except.map] at h
    exact ((Prod.mk.injEq ..).mp (Except.ok.inj h)).2.symm
  | some previousFields =>
    simp only [get_cpu_usage] at h
    cases hc : computeFromFields (parseStatFields stat) previousFields with
    | error e =>
      rw [hc] at h
      simp [Except.map] at h
    | ok r =>
      rw [hc] at h
      simp only [Except.map] at h
      exact ((Prod.mk.injEq ..).mp (Except.ok.inj h)).2.symm

/-- Claim C2 witness: a concrete successful invocation persists the parsed fields. -/
theorem persist_always_updated_witness :
    (some [['1'], ['2']] : Option (List (List Char))) =
      some (parseStatFields ("cpu  1 2".data)) :=
  persist_always_updated ("cpu  1 2".data) none none (some [['1'], ['2']]) rfl

/-- Claim C10: a single `run` tick appends at most one point to the outgoing buffer
and preserves all existing entries in order, and the only removal is
`create_message`, which empties the buffer completely while returning its
former contents. -/
theorem tick_appends_at_most_one {σ P : Type}
    (accumulate : Int → ℚ → σ → Option P × σ) (newTimestamp : Int)
    (readResult : Option (List Char)) (st st' : PluginState σ P)
    (h : run accumulate newTimestamp readResult st = .ok st') :
    (st'.cpuUsagePoints = st.cpuUsagePoints ∨
      ∃ p, st'.cpuUsagePoints = st.cpuUsagePoints ++ [p]) ∧
      (create_message st).2.cpuUsagePoints = [] ∧
      (create_message st).1.cpuUsages = st.cpuUsagePoints := by
  refine ⟨?_, rfl, rfl⟩
  simp only [run] at h
  cases hg : get_cpu_usage readResult st.lastMeasure with
  | error e =>
    rw [hg] at h
    simp at h
  | ok pr =>
    obtain ⟨usage, newLast⟩ := pr
    rw [hg] at h
    cases usage with
    | none =>
      simp at h
      rw [← h]
      exact Or.inl rfl
    | some q =>
      simp only at h
      cases hacc : accumulate newTimestamp q st.accumState with
      | mk stepData accSt =>
        rw [hacc] at h
        cases stepData with
        | none =>
          simp at h
          rw [← h]
          exact Or.inl rfl
        | some p =>
          simp at h
          rw [← h]
          exact Or.inr ⟨p, rfl⟩

theorem computeFromFields_valid (newS prevS : List Nat)
    (hln : newS.length = 10) (hlp : prevS.length = 10)
    (hmono : ∀ i, i < 10 → prevS.getD i 0 ≤ newS.getD i 0) :
    computeFromFields (renderSample newS) (renderSample prevS) =
      if idleOf newS prevS + usedOf newS prevS = 0 then .ok none
      else .ok (some ((usedOf newS prevS : ℚ) /
        ((idleOf newS prevS + usedOf newS prevS : Int) : ℚ))) := by
  have hF : (renderSample newS).length = 10 := by simp [renderSample, hln]
  have hdel : ∀ i, i < 10 →
      fieldDelta (renderSample newS) (renderSample prevS) i =
        some (sampleDelta newS prevS i) := by
    intro i hi
    exact fieldDelta_renderSample newS prevS i (by omega) (by omega)
  have hd : ∀ i, i < (renderSample newS).length →
      ∃ d, fieldDelta (renderSample newS) (renderSample prevS) i = some d ∧ 0 ≤ d := by
    intro i hi
    rw [hF] at hi
    refine ⟨sampleDelta newS prevS i, hdel i hi, ?_⟩
    rw [sampleDelta]
    have := hmono i hi
    omega
  have hloop := deltaLoop_success (renderSample newS) (renderSample prevS) hd
    10 0 [] 0 (by omega)
  have h3 : ((List.range' 0 10).map
      (fun k => (fieldDelta (renderSample newS) (renderSample prevS) k).getD 0))[3]? =
      some (idleOf newS prevS) := by
    rw [List.getElem?_map, show (List.range' 0 10)[3]? = some 3 from rfl,
      Option.map_some', hdel 3 (by omega)]
    rfl
  have hmap : ((List.range' 0 10).filter (fun k => decide (k ≠ 3))).map
      (fun k => (fieldDelta (renderSample newS) (renderSample prevS) k).getD 0) =
      ((List.range' 0 10).filter (fun k => decide (k ≠ 3))).map
        (sampleDelta newS prevS) := by
    apply List.map_congr_left
    intro k hk
    have hk10 : k < 10 := by
      have := List.mem_range'_1.mp (List.mem_filter.mp hk).1
      omega
    rw [hdel k hk10]
    rfl
  have husedOf : usedOf newS prevS =
      (((List.range' 0 10).filter (fun k => decide (k ≠ 3))).map
        (sampleDelta newS prevS)).sum := by
    rw [usedOf, hln, List.range_eq_range' 10]
  simp only [computeFromFields, hF, List.range_eq_range' 10, hloop, List.nil_append,
    zero_add, h3, hmap, ← husedOf, Bool.false_eq_true, if_false]

/-- Claim C1: for valid non-decreasing successive 10-field samples with positive
divisor, `_get_cpu_usage` returns exactly `used / (used + idle)` (with `used`
the sum of all deltas except index 3 and `idle` the delta at index 3), the
new fields are persisted, and the ratio lies in `[0, 1]`. -/
theorem compute_valid_ratio (prevS newS : List Nat)
    (hlp : prevS.length = 10) (hln : newS.length = 10)
    (hmono : ∀ i, i < 10 → prevS.getD i 0 ≤ newS.getD i 0)
    (hdiv : 0 < usedOf newS prevS + idleOf newS prevS) :
    get_cpu_usage (some (statLineOf newS)) (some (renderSample prevS)) =
      .ok (some ((usedOf newS prevS : ℚ) /
          ((usedOf newS prevS : ℚ) + (idleOf newS prevS : ℚ))),
        some (renderSample newS)) ∧
      0 ≤ (usedOf newS prevS : ℚ) /
        ((usedOf newS prevS : ℚ) + (idleOf newS prevS : ℚ)) ∧
      (usedOf newS prevS : ℚ) /
        ((usedOf newS prevS : ℚ) + (idleOf newS prevS : ℚ)) ≤ 1 := by
  have hused : 0 ≤ usedOf newS prevS := by
    rw [usedOf]
    apply List.sum_nonneg
    intro x hx
    rcases List.mem_map.mp hx with ⟨k, hk, rfl⟩
    have hk10 : k < 10 := by
      have := List.mem_range.mp (List.mem_filter.mp hk).1
      omega
    rw [sampleDelta]
    have := hmono k hk10
    omega
  have hidle : 0 ≤ idleOf newS prevS := by
    rw [idleOf, sampleDelta]
    have := hmono 3 (by omega)
    omega
  have hne : newS ≠ [] := by
    intro he
    rw [he] at hln
    simp at hln
  have hdenQ : (0 : ℚ) < (usedOf newS prevS : ℚ) + (idleOf newS prevS : ℚ) := by
    have h0 : (0 : ℚ) < ((usedOf newS prevS + idleOf newS prevS : Int) : ℚ) := by
      exact_mod_cast hdiv
    push_cast at h0
    linarith
  have hq0 : 0 ≤ (usedOf newS prevS : ℚ) /
      ((usedOf newS prevS : ℚ) + (idleOf newS prevS : ℚ)) :=
    div_nonneg (by exact_mod_cast hused) (le_of_lt hdenQ)
  have hq1 : (usedOf newS prevS : ℚ) /
      ((usedOf newS prevS : ℚ) + (idleOf newS prevS : ℚ)) ≤ 1 := by
    rw [div_le_one hdenQ]
    have h0 : (0 : ℚ) ≤ (idleOf newS prevS : ℚ) := by exact_mod_cast hidle
    linarith
  refine ⟨?_, hq0, hq1⟩
  have hqeq : ((usedOf newS prevS : Int) : ℚ) /
      ((idleOf newS prevS + usedOf newS prevS : Int) : ℚ) =
      (usedOf newS prevS : ℚ) / ((usedOf newS prevS : ℚ) + (idleOf newS prevS : ℚ)) := by
    push_cast
    rw [add_comm]
  simp only [get_cpu_usage, parseStatFields_statLineOf newS hne,
    computeFromFields_valid newS prevS hln hlp hmono, if_neg (by omega :
      ¬ idleOf newS prevS + usedOf newS prevS = 0), Except.map, hqeq, sanitize]
  rw [if_neg (by push_neg; exact ⟨hq0, hq1⟩)]

/-- Claim C1 witness: the spec's worked example — previous sample
`(user=100, idle=200, others=0)`, new sample `(user=150, idle=220,
others=0)` — gives `used=50`, `idle=20`, ratio `50/70` in `[0, 1]`. -/
theorem compute_valid_ratio_witness :
    get_cpu_usage (some (statLineOf [150, 0, 0, 220, 0, 0, 0, 0, 0, 0]))
        (some (renderSample [100, 0, 0, 200, 0, 0, 0, 0, 0, 0])) =
      .ok (some ((usedOf [150, 0, 0, 220, 0, 0, 0, 0, 0, 0] [100, 0, 0, 200, 0, 0, 0, 0, 0, 0] : ℚ) /
          ((usedOf [150, 0, 0, 220, 0, 0, 0, 0, 0, 0] [100, 0, 0, 200, 0, 0, 0, 0, 0, 0] : ℚ) +
            (idleOf [150, 0, 0, 220, 0, 0, 0, 0, 0, 0] [100, 0, 0, 200, 0, 0, 0, 0, 0, 0] : ℚ))),
        some (renderSample [150, 0, 0, 220, 0, 0, 0, 0, 0, 0])) ∧
      0 ≤ (usedOf [150, 0, 0, 220, 0, 0, 0, 0, 0, 0] [100, 0, 0, 200, 0, 0, 0, 0, 0, 0] : ℚ) /
        ((usedOf [150, 0, 0, 220, 0, 0, 0, 0, 0, 0] [100, 0, 0, 200, 0, 0, 0, 0, 0, 0] : ℚ) +
          (idleOf [150, 0, 0, 220, 0, 0, 0, 0, 0, 0] [100, 0, 0, 200, 0, 0, 0, 0, 0, 0] : ℚ)) ∧
      (usedOf [150, 0, 0, 220, 0, 0, 0, 0, 0, 0] [100, 0, 0, 200, 0, 0, 0, 0, 0, 0] : ℚ) /
        ((usedOf [150, 0, 0, 220, 0, 0, 0, 0, 0, 0] [100, 0, 0, 200, 0, 0, 0, 0, 0, 0] : ℚ) +
          (idleOf [150, 0, 0, 220, 0, 0, 0, 0, 0, 0] [100, 0, 0, 200, 0, 0, 0, 0, 0, 0] : ℚ)) ≤ 1 :=
  compute_valid_ratio [100, 0, 0, 200, 0, 0, 0, 0, 0, 0] [150, 0, 0, 220, 0, 0, 0, 0, 0, 0]
    rfl rfl (by decide) (by decide)

/-- Claim C7: two samples with all deltas non-negative whose divisor
`used + idle` is zero (for example identical consecutive samples) make
`_get_cpu_usage` return absent (and still persist the new fields), without
raising. -/
theorem zero_divisor_absent (prevS newS : List Nat)
    (hlp : prevS.length = 10) (hln : newS.length = 10)
    (hmono : ∀ i, i < 10 → prevS.getD i 0 ≤ newS.getD i 0)
    (hdiv : usedOf newS prevS + idleOf newS prevS = 0) :
    get_cpu_usage (some (statLineOf newS)) (some (renderSample prevS)) =
      .ok (none, some (renderSample newS)) := by
  have hne : newS ≠ [] := by
    intro he
    rw [he] at hln
    simp at hln
  simp only [get_cpu_usage, parseStatFields_statLineOf newS hne,
    computeFromFields_valid newS prevS hln hlp hmono, if_pos (by omega :
      idleOf newS prevS + usedOf newS prevS = 0), Except.map, sanitize]

/-- Claim C7 witness: two identical consecutive samples give divisor zero and an
absent result. -/
theorem zero_divisor_absent_witness :
    get_cpu_usage (some (statLineOf [1, 2, 3, 4, 5, 6, 7, 8, 9, 10]))
        (some (renderSample [1, 2, 3, 4, 5, 6, 7, 8, 9, 10])) =
      .ok (none, some (renderSample [1, 2, 3, 4, 5, 6, 7, 8, 9, 10])) :=
  zero_divisor_absent [1, 2, 3, 4, 5, 6, 7, 8, 9, 10] [1, 2, 3, 4, 5, 6, 7, 8, 9, 10]
    rfl rfl (by decide) (by decide)

/-- Claim C5 counterexample: the computation CAN raise.  With a previous sample
present, a stat line whose counter tokens are not numerals
(`"cpu  a b"`) makes `int(fields[0])` raise `ValueError`, which
`_get_cpu_usage` does not catch: the model reaches the error state instead
of returning an absent value. -/
theorem raises_on_garbage_counterexample :
    get_cpu_usage (some ("cpu  a b".data)) (some [['0'], ['0']]) = .error () := rfl

/-- Claim C5 (amended): on well-formed inputs — a read failure, or a stat line in
the standard 10-counter layout together with a persisted previous sample
that is absent or itself a rendered 10-counter sample — `_get_cpu_usage`
never raises: every outcome (missing previous sample, counter reset, zero
divisor, out-of-range ratio, unreadable resource) is delivered as a normal
return. -/
theorem never_raises_on_wellformed (readResult : Option (List Char))
    (lastMeasure : Option (List (List Char)))
    (hread : readResult = none ∨
      ∃ newS : List Nat, newS.length = 10 ∧ readResult = some (statLineOf newS))
    (hlast : lastMeasure = none ∨
      ∃ prevS : List Nat, prevS.length = 10 ∧ lastMeasure = some (renderSample prevS)) :
    ∃ out, get_cpu_usage readResult lastMeasure = .ok out := by
  rcases hread with rfl | ⟨newS, hln, rfl⟩
  · exact ⟨(none, lastMeasure), rfl⟩
  rcases hlast with rfl | ⟨prevS, hlp, rfl⟩
  · exact ⟨(none, some (parseStatFields (statLineOf newS))), rfl⟩
  have hne : newS ≠ [] := by
    intro he
    rw [he] at hln
    simp at hln
  have hF := parseStatFields_statLineOf newS hne
  have hFlen : (renderSample newS).length = 10 := by simp [renderSample, hln]
  have hp : ∀ i, i < (renderSample newS).length →
      (((renderSample newS)[i]?).bind pyInt).isSome ∧
        (((renderSample prevS)[i]?).bind pyInt).isSome := by
    intro i hi
    rw [hFlen] at hi
    constructor
    · rw [renderSample, List.getElem?_map,
        List.getElem?_eq_getElem (show i < newS.length by omega)]
      simp [pyInt_renderNat]
    · rw [renderSample, List.getElem?_map,
        List.getElem?_eq_getElem (show i < prevS.length by omega)]
      simp [pyInt_renderNat]
  obtain ⟨acc', u', r, hloop, hlen⟩ :=
    deltaLoop_total (renderSample newS) (renderSample prevS) hp 10 0 [] 0 (by omega)
  have hcf : ∃ r0, computeFromFields (renderSample newS) (renderSample prevS) = .ok r0 := by
    simp only [computeFromFields, hFlen, List.range_eq_range' 10, hloop]
    cases r with
    | true => exact ⟨none, by simp⟩
    | false =>
      have hl : acc'.length = 10 := by simpa using hlen rfl
      rw [List.getElem?_eq_getElem (show 3 < acc'.length by omega)]
      by_cases hdv : acc'.get ⟨3, by omega⟩ + u' = 0
      · refine ⟨none, ?_⟩
        simp only [List.get_eq_getElem] at hdv
        simp [hdv]
      · refine ⟨some ((u' : ℚ) / ((acc'.get ⟨3, by omega⟩ + u' : Int) : ℚ)), ?_⟩
        simp only [List.get_eq_getElem] at hdv
        simp [hdv]
  obtain ⟨r0, hr0⟩ := hcf
  refine ⟨(sanitize r0, some (renderSample newS)), ?_⟩
  simp only [get_cpu_usage, hF, hr0, Except.map]

/-- Claim C5 witness: a concrete well-formed first run returns normally. -/
theorem never_raises_on_wellformed_witness :
    ∃ out, get_cpu_usage (some (statLineOf [0, 0, 0, 0, 0, 0, 0, 0, 0, 0])) none =
      .ok out :=
  never_raises_on_wellformed (some (statLineOf [0, 0, 0, 0, 0, 0, 0, 0, 0, 0])) none
    (Or.inr ⟨[0, 0, 0, 0, 0, 0, 0, 0, 0, 0], rfl, rfl⟩) (Or.inl rfl)

/-- Claim C4 counterexample: a first line consisting of a label token followed by
10 non-negative integers separated by whitespace — here single spaces,
`"cpu 1 2 3 4 5 6 7 8 9 10"` — does NOT parse into 10 integer fields: the
`split(" ")[2:]` recipe discards the label and the first integer, leaving
only 9 fields.  The claim's universal statement over whitespace-separated
lines is therefore false. -/
theorem parse_line_single_space_counterexample :
    parseStatFields ("cpu 1 2 3 4 5 6 7 8 9 10".data) =
      [['2'], ['3'], ['4'], ['5'], ['6'], ['7'], ['8'], ['9'], ['1', '0']] ∧
      (parseStatFields ("cpu 1 2 3 4 5 6 7 8 9 10".data)).length = 9 := by
  constructor <;> rfl

/-- Claim C4 (amended): for a first line in the actual `/proc/stat` layout — the
label, two spaces, then the 10 counters separated by single spaces, with a
trailing newline — the read routine parses exactly the 10 numeral fields in
order (discarding the label token and the empty token produced by the double
space), and each field parses back to its counter. -/
theorem parse_line_ten_fields (xs : List Nat) (h : xs.length = 10) :
    parseStatFields (statLineOf xs) = renderSample xs ∧
      (parseStatFields (statLineOf xs)).length = 10 ∧
      ∀ i, i < 10 → pyInt ((parseStatFields (statLineOf xs)).getD i []) =
        some ((xs.getD i 0 : Nat) : Int) := by
  have hne : xs ≠ [] := by
    intro he
    rw [he] at h
    simp at h
  have hp := parseStatFields_statLineOf xs hne
  refine ⟨hp, ?_, ?_⟩
  · rw [hp, renderSample]
    simp [h]
  · intro i hi
    have hil : i < xs.length := by omega
    rw [hp, renderSample,
      List.getD_eq_getElem _ _ (by simpa using hil)]
    simp only [List.getElem_map]
    rw [pyInt_renderNat, List.getD_eq_getElem _ _ hil]

/-- Claim C4 witness: the spec's own field layout at a concrete sample. -/
theorem parse_line_ten_fields_witness :
    parseStatFields (statLineOf [1, 2, 3, 4, 5, 6, 7, 8, 9, 10]) =
      renderSample [1, 2, 3, 4, 5, 6, 7, 8, 9, 10] ∧
      (parseStatFields (statLineOf [1, 2, 3, 4, 5, 6, 7, 8, 9, 10])).length = 10 ∧
      ∀ i, i < 10 →
        pyInt ((parseStatFields (statLineOf [1, 2, 3, 4, 5, 6, 7, 8, 9, 10])).getD i []) =
          some (([1, 2, 3, 4, 5, 6, 7, 8, 9, 10].getD i 0 : Nat) : Int) :=
  parse_line_ten_fields [1, 2, 3, 4, 5, 6, 7, 8, 9, 10] (by decide)

/-- Claim C3: when the first negative per-field delta occurs at index `j` and all
earlier deltas are defined and non-negative, `_get_cpu_usage` returns absent
and still persists the new fields.  The fields and the previous sample are
completely unconstrained past index `j` — they may even be unparseable
garbage — which captures that the scan short-circuits at the first negative
delta without examining later fields. -/
theorem reboot_short_circuit (stat : List Char) (previousFields : List (List Char))
    (j : Nat) (hj : j < (parseStatFields stat).length)
    (hpre : ∀ k, k < j →
      ∃ d, fieldDelta (parseStatFields stat) previousFields k = some d ∧ 0 ≤ d)
    (hneg : ∃ d, fieldDelta (parseStatFields stat) previousFields j = some d ∧ d < 0) :
    get_cpu_usage (some stat) (some previousFields) =
      .ok (none, some (parseStatFields stat)) := by
  obtain ⟨acc', u', hloop⟩ :=
    deltaLoop_reboot (parseStatFields stat) previousFields j hneg hpre
      (parseStatFields stat).length 0 [] 0 (by omega) (by omega)
  simp only [get_cpu_usage, computeFromFields,
    List.range_eq_range' (parseStatFields stat).length, hloop]
  rfl

/-- Claim C3 witness: previous sample `["9", "z"]` against new fields
`["5", "x9"]`: the delta at index 0 is negative, and the garbage tokens at
index 1 are never examined (parsing them would have raised), so the result
is absent with the new fields persisted. -/
theorem reboot_short_circuit_witness :
    get_cpu_usage (some ("cpu  5 x9".data)) (some [['9'], ['z']]) =
      .ok (none, some (parseStatFields ("cpu  5 x9".data))) :=
  reboot_short_circuit ("cpu  5 x9".data) [['9'], ['z']] 0 (by decide)
    (fun k hk => absurd hk (by omega)) ⟨-4, by decide, by decide⟩

/-- Claim C10 witness: a concrete tick (read failure) leaves the empty buffer
unchanged, and draining the concrete state empties it. -/
theorem tick_appends_at_most_one_witness :
    ((⟨[], none, ()⟩ : PluginState Unit Unit).cpuUsagePoints =
        (⟨[], none, ()⟩ : PluginState Unit Unit).cpuUsagePoints ∨
      ∃ p, (⟨[], none, ()⟩ : PluginState Unit Unit).cpuUsagePoints =
        (⟨[], none, ()⟩ : PluginState Unit Unit).cpuUsagePoints ++ [p]) ∧
      (create_message (⟨[], none, ()⟩ : PluginState Unit Unit)).2.cpuUsagePoints = [] ∧
      (create_message (⟨[], none, ()⟩ : PluginState Unit Unit)).1.cpuUsages =
        (⟨[], none, ()⟩ : PluginState Unit Unit).cpuUsagePoints :=
  tick_appends_at_most_one (fun _ _ s => (none, s)) 0 none _ _ rfl

end CpuUsage
